import Mathlib

/-
Verification of the tiered caching engine and the pooled database client of
the PythonLibrary repository, as a shallow embedding in Lean.

Embedded source files:
  * services/cache/caching_service.py  (CachingService, ZlibCompressor,
    MemoryCacheBackend, FileCacheBackend)
  * services/database/database_client.py  (ConnectionPool, DatabaseClient)

Modelling conventions:
  * Byte strings are `List Nat` (`Bytes`); time.time() is an explicit `Nat`
    argument threaded through each operation.
  * Python dicts are insertion-ordered association lists with unique keys
    (`dictGet` / `dictSet` / `dictDelete` mirror d[k], d[k]=v, del d[k]).
  * External collaborators (pickle, zlib, UTF-8 decoding, json) are
    parameters of the operations that call them; theorems that need their
    documented contracts (for instance that zlib decompression inverts zlib
    compression) take those contracts as explicit hypotheses and witnesses
    instantiate them with concrete invertible codecs.
  * Python exceptions are values of `PyExc`; a function that can raise
    returns `Except PyExc` or `Option` results.
-/

/-- Byte sequences, as produced by pickle.dumps and consumed by zlib. -/
abbrev Bytes := List Nat

/-- Model of Python runtime values stored in the cache. `vnone` is Python's
None; the cache code compares values against None, so None is a first-class
constructor rather than `Option`. -/
inductive Val where
  | vnone
  | vint (n : Int)
  | vbool (b : Bool)
deriving DecidableEq

/-- Python exception classes that the embedded code raises or catches. -/
inductive PyExc where
  | pickleError
  | ioError
  | eofError
  | jsonDecodeError
  | unicodeDecodeError
  | zlibError
  | attributeError
  | other
deriving DecidableEq

/-- ZlibCompressor (caching_service.py lines 230-282). `level` and
`threshold` are the constructor arguments; the zlib library itself is
external, so its compress/decompress routines are the fields `zcomp` and
`zdecomp` (in the source, `zlib.compress(data, self.level)` and
`zlib.decompress(data)`). -/
structure ZlibCompressor where
  level : Nat
  threshold : Nat
  zcomp : Bytes → Bytes
  zdecomp : Bytes → Bytes

/-- ZlibCompressor.compress (lines 246-266): below the threshold return the
data unchanged with flag False; otherwise compress, and keep the compressed
bytes only if strictly smaller than the input. -/
def ZlibCompressor.compress (c : ZlibCompressor) (data : Bytes) : Bytes × Bool :=
  if data.length < c.threshold then (data, false)
  else
    let compressed : Bytes := c.zcomp data
    if compressed.length < data.length then (compressed, true) else (data, false)

/-- ZlibCompressor.decompress (lines 268-282): identity when the flag says
the data was never compressed. -/
def ZlibCompressor.decompress (c : ZlibCompressor) (data : Bytes) (isCompressed : Bool) : Bytes :=
  if isCompressed then c.zdecomp data else data

/-- One entry of the in-memory cache dict (caching_service.py line 298 and
336-342): (serialized, expiry_time, last_access_time, is_compressed, size). -/
structure MemEntry where
  data : Bytes
  expiry : Option Nat
  lastAccess : Nat
  isCompressed : Bool
  size : Nat
deriving DecidableEq

/-- The `_stats` dict shared by both cache backends (hits, misses,
evictions, size). `size` is an Int because the Python code freely
subtracts from it. -/
structure CacheStats where
  hits : Nat
  misses : Nat
  evictions : Nat
  size : Int
deriving DecidableEq

/-- State of MemoryCacheBackend (caching_service.py lines 285-306):
the key -> entry dict, max_size, the optional compressor and the stats. -/
structure MemoryCacheBackend where
  cache : List (String × MemEntry)
  maxSize : Nat
  compressor : Option ZlibCompressor
  stats : CacheStats

/-- Python dict lookup `self._cache[key]` / `key in self._cache`. -/
def dictGet : List (String × MemEntry) → String → Option MemEntry
  | [], _ => none
  | p :: rest, k => if p.1 = k then some p.2 else dictGet rest k

/-- Python dict assignment `self._cache[key] = entry`: replaces in place if
the key exists (keeping its position, as insertion-ordered dicts do),
otherwise appends. -/
def dictSet : List (String × MemEntry) → String → MemEntry → List (String × MemEntry)
  | [], k, e => [(k, e)]
  | p :: rest, k, e => if p.1 = k then (k, e) :: rest else p :: dictSet rest k e

/-- Python dict deletion `del self._cache[key]`. -/
def dictDelete : List (String × MemEntry) → String → List (String × MemEntry)
  | [], _ => []
  | p :: rest, k => if p.1 = k then rest else p :: dictDelete rest k

/-- Comparison key of the eviction sort (line 434: sort by last access
time). -/
def entryLe (p q : String × MemEntry) : Prop := p.2.lastAccess ≤ q.2.lastAccess

instance : DecidableRel entryLe := fun p q => Nat.decLe p.2.lastAccess q.2.lastAccess

instance : IsTotal (String × MemEntry) entryLe := ⟨fun _ _ => Nat.le_total _ _⟩

instance : IsTrans (String × MemEntry) entryLe := ⟨fun _ _ _ h h2 => Nat.le_trans h h2⟩

/-- Expiry test used by MemoryCacheBackend.get and has_key:
`expiry_time is not None and time.time() > expiry_time`. -/
def isExpired (expiry : Option Nat) (now : Nat) : Bool :=
  match expiry with
  | none => false
  | some t => decide (t < now)

/-- MemoryCacheBackend._evict_items (lines 428-445): sort all entries by
last access time, evict the oldest max(1, n // 10), decrementing the size
stat and counting each eviction. The deletions are sequential dict
deletions, as in the Python loop. Python's sort is modelled by
insertionSort over the last-access order. -/
def MemoryCacheBackend.evict_items (st : MemoryCacheBackend) : MemoryCacheBackend :=
  let items : List (String × MemEntry) := st.cache
  let sorted : List (String × MemEntry) := List.insertionSort entryLe items
  let numToEvict : Nat := max 1 (items.length / 10)
  let evicted : List (String × MemEntry) := sorted.take numToEvict
  { st with
      cache := (evicted.map Prod.fst).foldl dictDelete st.cache
      stats := { st.stats with
                  evictions := st.stats.evictions + evicted.length
                  size := st.stats.size - ((evicted.map fun p => (p.2.size : Int)).sum) } }

/-- Serialization plus optional compression done by set (lines 326-333). -/
def compressValue (compressor : Option ZlibCompressor) (serialized : Bytes) : Bytes × Bool :=
  match compressor with
  | some c => c.compress serialized
  | none => (serialized, false)

/-- MemoryCacheBackend.set (lines 308-345). `ser` is pickle.dumps; `now` is
time.time(). Evicts before inserting when the store is full and the key is
new; serializes, optionally compresses, stores the entry and adds the
serialized size to the size stat. -/
def MemoryCacheBackend.set (ser : Val → Bytes) (now : Nat) (key : String) (value : Val)
    (ttl : Option Nat) (st : MemoryCacheBackend) : MemoryCacheBackend :=
  let st1 : MemoryCacheBackend :=
    if st.maxSize ≤ st.cache.length ∧ dictGet st.cache key = none then st.evict_items else st
  let serialized : Bytes := ser value
  let comp : Bytes × Bool := compressValue st1.compressor serialized
  { st1 with
      cache := dictSet st1.cache key
        ⟨comp.1, ttl.map fun t => now + t, now, comp.2, serialized.length⟩
      stats := { st1.stats with size := st1.stats.size + serialized.length } }

/-- MemoryCacheBackend.get (lines 347-380). `deser` is pickle.loads. A
missing key or an expired entry counts a miss and yields None (`vnone`);
an expired entry is deleted. Otherwise the last access time is refreshed,
the payload decompressed (when a compressor is configured) and
deserialized, and a hit is counted. -/
def MemoryCacheBackend.get (deser : Bytes → Val) (now : Nat) (key : String)
    (st : MemoryCacheBackend) : Val × MemoryCacheBackend :=
  match dictGet st.cache key with
  | none =>
      (.vnone, { st with stats := { st.stats with misses := st.stats.misses + 1 } })
  | some e =>
      if isExpired e.expiry now then
        (.vnone, { st with
            cache := dictDelete st.cache key
            stats := { st.stats with misses := st.stats.misses + 1 } })
      else
        let st2 : MemoryCacheBackend :=
          { st with cache := dictSet st.cache key { e with lastAccess := now } }
        let serialized : Bytes :=
          match st2.compressor with
          | some c => c.decompress e.data e.isCompressed
          | none => e.data
        (deser serialized,
          { st2 with stats := { st2.stats with hits := st2.stats.hits + 1 } })

/-- CachingService errors (core/exceptions): CacheError raised by the
facade, carrying the cache key and, for get_or_set, the original failure
of the compute function. -/
inductive CacheErr where
  | computeFailed (key : String) (orig : PyExc)
  | backendFailed (key : String)
deriving DecidableEq

/-- CachingService.get (caching_service.py lines 110-128) over the memory
backend: backend result None becomes the caller-supplied default. The
try/except around the backend call cannot fire for the (total) memory
backend; `CachingService.getDispatch` below models it for an arbitrary
backend. -/
def CachingService.get (deser : Bytes → Val) (now : Nat) (key : String) (default : Val)
    (st : MemoryCacheBackend) : Val × MemoryCacheBackend :=
  let r := MemoryCacheBackend.get deser now key st
  (if r.1 = .vnone then default else r.1, r.2)

/-- CachingService.set (lines 91-108) over the memory backend, which never
raises, so the CacheError wrapper is not reachable. -/
def CachingService.set (ser : Val → Bytes) (now : Nat) (key : String) (value : Val)
    (ttl : Option Nat) (st : MemoryCacheBackend) : MemoryCacheBackend :=
  MemoryCacheBackend.set ser now key value ttl st

/-- CachingService.get_or_set (lines 182-214) over the memory backend.
`valueFunc` is the result of calling the compute function: `.error e`
models it raising e. The returned Bool records whether the compute
function was invoked (true exactly when the miss branch ran). On compute
failure the facade raises CacheError wrapping the original exception and
does not store anything; on success it stores and returns the value. -/
def CachingService.get_or_set (ser : Val → Bytes) (deser : Bytes → Val) (now : Nat)
    (key : String) (valueFunc : Except PyExc Val) (ttl : Option Nat)
    (st : MemoryCacheBackend) : Except CacheErr Val × MemoryCacheBackend × Bool :=
  let r := CachingService.get deser now key .vnone st
  if r.1 = .vnone then
    match valueFunc with
    | .error e => (.error (.computeFailed key e), r.2, true)
    | .ok v => (.ok v, CachingService.set ser now key v ttl r.2, true)
  else
    (.ok r.1, r.2, false)

/-- CachingService.get with an arbitrary backend (lines 110-128): the
backend call either returns a value or raises; any exception is caught and
the default returned, and a returned None also yields the default. -/
def CachingService.getDispatch (backendResult : Except PyExc Val) (default : Val) : Val :=
  match backendResult with
  | .error _ => default
  | .ok v => if v = .vnone then default else v

/-- CachingService.has_key with an arbitrary backend (lines 166-180): any
backend exception is caught and False returned. -/
def CachingService.hasKeyDispatch (backendResult : Except PyExc Bool) : Bool :=
  match backendResult with
  | .error _ => false
  | .ok b => b

/-- Metadata block of a durable cache file after json.loads: either a JSON
object carrying expiry_time and compressed (the other fields play no role
in get), or some other JSON value, on which `metadata.get(...)` raises
AttributeError. -/
inductive JMeta where
  | jdict (expiry : Option Nat) (compressed : Bool)
  | jother
deriving DecidableEq

/-- Outcome of FileCacheBackend.get: a deserialized value, a miss on an
absent file, a miss after self-healing deletion (empty, corrupted or
expired file), or a propagated Python exception. -/
inductive FileGetResult where
  | hitv (v : Val)
  | missAbsent
  | missDeleted
  | raised (e : PyExc)
deriving DecidableEq

/-- int.from_bytes(bs, byteorder='little'); works on any length. -/
def littleEndianNat (bs : Bytes) : Nat :=
  bs.foldr (fun b acc => b + 256 * acc) 0

/-- Exceptions caught by the corruption handler of FileCacheBackend.get
(caching_service.py line 638): pickle.PickleError, IOError, EOFError and
json.JSONDecodeError, and nothing else. -/
def FileCacheBackend.getCaught : PyExc → Bool
  | .pickleError => true
  | .ioError => true
  | .eofError => true
  | .jsonDecodeError => true
  | _ => false

/-- Body of FileCacheBackend.get (lines 596-637) on the raw bytes of an
existing cache file. The external calls are parameters: `utf8d` is
bytes.decode() (None models UnicodeDecodeError), `jload` is json.loads
(None models json.JSONDecodeError), `zdec` is zlib decompression (None
models zlib.error), `pload` is pickle.loads (None models
pickle.PickleError). Reading the 4-byte length prefix, the metadata block
and the payload are List.take / List.drop on the content. -/
def FileCacheBackend.getBody (utf8d : Bytes → Option String) (jload : String → Option JMeta)
    (zdec : Bytes → Option Bytes) (pload : Bytes → Option Val)
    (now : Nat) (content : Bytes) : Except PyExc FileGetResult :=
  let mlb : Bytes := content.take 4
  if mlb.isEmpty then .ok .missDeleted
  else
    let mlen : Nat := littleEndianNat mlb
    let metaBytes : Bytes := (content.drop 4).take mlen
    match utf8d metaBytes with
    | none => .error .unicodeDecodeError
    | some s =>
      match jload s with
      | none => .error .jsonDecodeError
      | some .jother => .error .attributeError
      | some (.jdict expiry compressed) =>
        if isExpired expiry now then .ok .missDeleted
        else
          let payload : Bytes := content.drop (4 + mlen)
          match (if compressed then zdec payload else some payload) with
          | none => .error .zlibError
          | some d =>
            match pload d with
            | none => .error .pickleError
            | some v => .ok (.hitv v)

/-- FileCacheBackend.get (lines 580-642): a missing file is a plain miss;
otherwise the body runs, and of the exceptions it raises exactly those in
`FileCacheBackend.getCaught` are converted to delete-and-miss; the rest
propagate to the caller. -/
def FileCacheBackend.get (utf8d : Bytes → Option String) (jload : String → Option JMeta)
    (zdec : Bytes → Option Bytes) (pload : Bytes → Option Val)
    (now : Nat) (file : Option Bytes) : FileGetResult :=
  match file with
  | none => .missAbsent
  | some content =>
    match FileCacheBackend.getBody utf8d jload zdec pload now content with
    | .ok r => r
    | .error e => if FileCacheBackend.getCaught e then .missDeleted else .raised e

/-- UTF-8 decoding restricted to ASCII: a conservative executable stand-in
for bytes.decode(), used only to witness that some byte sequences (here,
anything containing a byte at or above 128, such as 0xFF) fail to decode,
which is true of real UTF-8 as well. -/
def modelUtf8Decode : Bytes → Option String := fun bs =>
  if bs.all (fun b => decide (b < 128)) then some (String.mk (bs.map Char.ofNat)) else none

/-- Witness stand-in for json.loads that always fails to parse. -/
def modelJsonLoads : String → Option JMeta := fun _ => none

/-- Witness stand-in for zlib decompression that always fails. -/
def modelZlibDecompress : Bytes → Option Bytes := fun _ => none

/-- Witness stand-in for pickle.loads that always fails. -/
def modelPickleLoads : Bytes → Option Val := fun _ => none

/-- State of ConnectionPool (database_client.py lines 14-68): the FIFO
queue of idle (connection id, last_used) pairs, the active-connections
counter (an Int, since the code decrements it), and max_connections. -/
structure ConnectionPool where
  pool : List (Nat × Nat)
  activeConnections : Int
  maxConnections : Nat
deriving DecidableEq

/-- ConnectionPool._add_connection (lines 51-68): refuse at the maximum;
otherwise call the connection factory (createOk says whether it succeeded,
the except branch returning False) and on success enqueue the connection
stamped with the current time and increment the active counter. -/
def ConnectionPool.addConnection (p : ConnectionPool) (createOk : Bool)
    (connId now : Nat) : ConnectionPool :=
  if (p.maxConnections : Int) ≤ p.activeConnections then p
  else if createOk then
    { p with
        pool := p.pool ++ [(connId, now)]
        activeConnections := p.activeConnections + 1 }
  else p

/-- Primitive state transitions of the pool. get_connection (lines 70-109)
is a loop whose iterations each perform one of: a non-blocking take that
hands out a validated or fresh connection (`takeValid`), a take whose
validation fails, decrementing the counter (`takeInvalid`, which the loop
follows with an `addConn` attempt), or an `addConn` attempt when the queue
is empty. `returnConn` is return_connection (lines 134-141), `closeAll` is
close_all (lines 143-156). -/
inductive PoolOp where
  | addConn (createOk : Bool) (connId now : Nat)
  | takeValid
  | takeInvalid
  | returnConn (connId now : Nat)
  | closeAll
deriving DecidableEq

/-- Effect of one primitive pool operation; a take on an empty queue is the
Empty branch and changes nothing. -/
def ConnectionPool.step (p : ConnectionPool) : PoolOp → ConnectionPool
  | .addConn ok id now => p.addConnection ok id now
  | .takeValid =>
      match p.pool with
      | [] => p
      | _ :: rest => { p with pool := rest }
  | .takeInvalid =>
      match p.pool with
      | [] => p
      | _ :: rest => { p with pool := rest, activeConnections := p.activeConnections - 1 }
  | .returnConn id now => { p with pool := p.pool ++ [(id, now)] }
  | .closeAll => { p with pool := [], activeConnections := 0 }

/-- ConnectionPool.__init__ plus _initialize_connections (lines 21-49):
start empty and attempt min_connections guarded additions; `creates` lists
the factory outcomes of those attempts. -/
def ConnectionPool.init (maxConnections : Nat) (creates : List (Bool × Nat × Nat)) :
    ConnectionPool :=
  creates.foldl (fun p c => p.addConnection c.1 c.2.1 c.2.2)
    { pool := [], activeConnections := 0, maxConnections := maxConnections }

/-- Running a sequence of pool operations. -/
def ConnectionPool.runOps (p : ConnectionPool) (ops : List PoolOp) : ConnectionPool :=
  ops.foldl ConnectionPool.step p

/-- Caller programs against DatabaseClient: a write statement (execute),
a statement that raises, sequencing, and a `with client.transaction():`
scope around a body. -/
inductive DbAct where
  | write (w : Nat)
  | err
  | seq (a b : DbAct)
  | tx (body : DbAct)
deriving DecidableEq

/-- State of one calling thread of DatabaseClient together with its
backend connection: `committed` is the durable database content,
`pending` the uncommitted writes of the thread-local transaction
connection (commit appends them to `committed`, rollback discards them),
`transactionLevel` and `connHeld` the thread-local transaction_level and
connection, and `commits` / `rollbacks` / `releases` count the
connection.commit(), connection.rollback() and pool-release calls. -/
structure DbState where
  committed : List Nat
  pending : List Nat
  transactionLevel : Nat
  connHeld : Bool
  commits : Nat
  rollbacks : Nat
  releases : Nat
deriving DecidableEq

/-- Semantics of DatabaseClient for one calling thread. The Bool is False
when an exception is propagating. `.write` is execute (lines 272-321):
inside a transaction it reuses the transaction connection and defers
commit; outside it acquires a pooled connection, writes, commits and
releases. `.tx` is the transaction contextmanager (lines 451-494): acquire
a connection and set level 0 if none is held, increment the level, run the
body; commit on normal exit only at level 1, roll back on exceptional exit
only at level 1, re-raise, and in the finally block decrement the level
and release the connection exactly when the level returns to 0. -/
def DatabaseClient.execAct : DbAct → DbState → DbState × Bool
  | .write w, st =>
    if 0 < st.transactionLevel then ({ st with pending := st.pending ++ [w] }, true)
    else
      ({ st with
          committed := st.committed ++ [w]
          commits := st.commits + 1
          releases := st.releases + 1 }, true)
  | .err, st => (st, false)
  | .seq a b, st =>
    let r : DbState × Bool := DatabaseClient.execAct a st
    if r.2 then DatabaseClient.execAct b r.1 else r
  | .tx body, st =>
    let s0 : DbState :=
      if st.connHeld then st else { st with connHeld := true, transactionLevel := 0 }
    let s1 : DbState := { s0 with transactionLevel := s0.transactionLevel + 1 }
    let r : DbState × Bool := DatabaseClient.execAct body s1
    let s3 : DbState :=
      if r.2 then
        if r.1.transactionLevel = 1 then
          { r.1 with
              committed := r.1.committed ++ r.1.pending
              pending := []
              commits := r.1.commits + 1 }
        else r.1
      else
        if r.1.transactionLevel = 1 then
          { r.1 with pending := [], rollbacks := r.1.rollbacks + 1 }
        else r.1
    let s4 : DbState := { s3 with transactionLevel := s3.transactionLevel - 1 }
    let s5 : DbState :=
      if s4.transactionLevel = 0 then
        { s4 with connHeld := false, releases := s4.releases + 1 }
      else s4
    (s5, r.2)

/-- Concrete injective serializer standing in for pickle.dumps in
witnesses. -/
def serVal : Val → Bytes
  | .vnone => [0]
  | .vint n => [1, n.toNat, (-n).toNat]
  | .vbool b => [2, if b then 1 else 0]

/-- Concrete deserializer standing in for pickle.loads in witnesses;
inverts serVal. -/
def deserVal : Bytes → Val
  | [0] => .vnone
  | [1, a, b] => .vint ((a : Int) - (b : Int))
  | [2, x] => .vbool (x == 1)
  | _ => .vnone

theorem deserVal_serVal (v : Val) : deserVal (serVal v) = v := by
  cases v with
  | vnone => rfl
  | vint n =>
      simp only [serVal, deserVal, Val.vint.injEq]
      omega
  | vbool b => cases b <;> rfl

/-- Identity compressor used by witnesses: zlib's contract holds for it
trivially. -/
def idCompressor : ZlibCompressor := ⟨6, 4, id, id⟩

/-- Fresh memory backend with the default max_size 1000 and no compressor. -/
def memEmpty : MemoryCacheBackend := ⟨[], 1000, none, ⟨0, 0, 0, 0⟩⟩

/-- Fresh memory backend with the identity witness compressor. -/
def memEmptyId : MemoryCacheBackend := ⟨[], 1000, some idCompressor, ⟨0, 0, 0, 0⟩⟩

/-- Fresh memory backend with max_size 0: the degenerate configuration on
which the eviction-count claim fails. -/
def memCache0 : MemoryCacheBackend := ⟨[], 0, none, ⟨0, 0, 0, 0⟩⟩

/-- Fresh memory backend with max_size 2, the configuration of the concrete
eviction scenario of the spec. -/
def memCache2 : MemoryCacheBackend := ⟨[], 2, none, ⟨0, 0, 0, 0⟩⟩

/-- The spec's concrete eviction scenario: set("a",1) at time 1,
set("b",2) at time 2, set("c",3) at time 3 on a memory store capped at 2. -/
def scenarioC3 : MemoryCacheBackend :=
  MemoryCacheBackend.set serVal 3 "c" (.vint 3) none
    (MemoryCacheBackend.set serVal 2 "b" (.vint 2) none
      (MemoryCacheBackend.set serVal 1 "a" (.vint 1) none memCache2))

/-- Two-entry store used to witness the general eviction theorem: "a" was
last touched at time 1, "b" at time 2. -/
def memTwoEntries : MemoryCacheBackend :=
  MemoryCacheBackend.set serVal 2 "b" (.vint 2) none
    (MemoryCacheBackend.set serVal 1 "a" (.vint 1) none memCache2)

/-- Initial database state: no connection held, no transaction open. -/
def dbSt0 : DbState := ⟨[], [], 0, false, 0, 0, 0⟩

/-- Caller program with a failing inner transaction scope: the outer scope
writes 1, then an inner scope writes 2 and raises. -/
def dbInnerFailure : DbAct := .tx ((DbAct.write 1).seq (.tx ((DbAct.write 2).seq .err)))

/- Definitions above; everything below is lemmas and the claim theorems. -/

/-- Round trip of the conditional compression, assuming zlib's contract
that zdecomp inverts zcomp. -/
theorem ZlibCompressor.decompress_compress (c : ZlibCompressor) (data : Bytes)
    (h : ∀ d, c.zdecomp (c.zcomp d) = d) :
    c.decompress (c.compress data).1 (c.compress data).2 = data := by
  unfold ZlibCompressor.compress ZlibCompressor.decompress
  by_cases h1 : data.length < c.threshold
  · simp [h1]
  · by_cases h2 : (c.zcomp data).length < data.length
    · simp [h1, h2, h data]
    · simp [h1, h2]

theorem dictGet_dictSet_self (l : List (String × MemEntry)) (k : String) (e : MemEntry) :
    dictGet (dictSet l k e) k = some e := by
  induction l with
  | nil => simp [dictSet, dictGet]
  | cons p rest ih =>
      by_cases h : p.1 = k
      · simp [dictSet, h, dictGet]
      · simp [dictSet, h, dictGet, ih]

theorem dictGet_eq_none_iff (l : List (String × MemEntry)) (k : String) :
    dictGet l k = none ↔ ∀ p ∈ l, p.1 ≠ k := by
  induction l with
  | nil => simp [dictGet]
  | cons p rest ih =>
      by_cases h : p.1 = k
      · simp [dictGet, h]
      · simp [dictGet, h, ih]


/-- C7: the Cache Facade's get returns the caller-supplied default and
has_key returns false whenever the backend call raises, for every
exception and every default; both are total functions, so no backend
exception ever propagates. -/
theorem cachingService_get_has_swallow_errors (e : PyExc) (default : Val) :
    CachingService.getDispatch (.error e) default = default ∧
    CachingService.hasKeyDispatch (.error e) = false :=
  ⟨rfl, rfl⟩

/-- C8: compress returns the compressed bytes with flag true only when the
input reached the threshold and the compressed output is strictly smaller
than the input; in every other case it returns the original bytes with
flag false. -/
theorem zlibCompressor_compress_conditional (c : ZlibCompressor) (data : Bytes) :
    ((c.compress data).2 = true →
        c.threshold ≤ data.length ∧ (c.compress data).1 = c.zcomp data ∧
        (c.compress data).1.length < data.length) ∧
    ((c.compress data).2 = false → (c.compress data).1 = data) := by
  unfold ZlibCompressor.compress
  by_cases h1 : data.length < c.threshold
  · simp [h1]
  · by_cases h2 : (c.zcomp data).length < data.length
    · simp [h1, h2]
      omega
    · simp [h1, h2]

/-- C9: decompressing the output of compress with its own flag returns the
original byte sequence, on the below-threshold identity path and on the
incompressible fallback path alike, assuming zlib's round-trip contract. -/
theorem zlibCompressor_roundtrip (c : ZlibCompressor) (data : Bytes)
    (h : ∀ d, c.zdecomp (c.zcomp d) = d) :
    c.decompress (c.compress data).1 (c.compress data).2 = data :=
  ZlibCompressor.decompress_compress c data h

/-- Witness for C9 at the identity compressor and a concrete byte string. -/
theorem zlibCompressor_roundtrip_witness :
    idCompressor.decompress (idCompressor.compress [1, 2, 3, 4, 5]).1
      (idCompressor.compress [1, 2, 3, 4, 5]).2 = [1, 2, 3, 4, 5] :=
  zlibCompressor_roundtrip idCompressor [1, 2, 3, 4, 5] (fun _ => rfl)

/-- C4 (code bug): a cache file whose 4-byte length prefix says the
metadata is 2 bytes long and whose metadata bytes are 0xFF 0xFE is
structurally corrupted (those bytes are not decodable text, in the model
as in real UTF-8), yet FileCacheBackend.get raises UnicodeDecodeError
instead of deleting the file and returning a miss: UnicodeDecodeError is
not in the tuple of exceptions get catches. -/
theorem fileCache_corrupt_metadata_raises :
    FileCacheBackend.get modelUtf8Decode modelJsonLoads modelZlibDecompress modelPickleLoads 0
        (some [2, 0, 0, 0, 255, 254]) = .raised .unicodeDecodeError ∧
    modelUtf8Decode [255, 254] = none ∧
    FileCacheBackend.getCaught .unicodeDecodeError = false := by
  decide

/-- Invariant step for C6: one primitive pool operation keeps the active
counter at or below the maximum and never changes the maximum. -/
theorem ConnectionPool.step_invariant (p : ConnectionPool) (op : PoolOp)
    (h : p.activeConnections ≤ (p.maxConnections : Int)) :
    (p.step op).activeConnections ≤ ((p.step op).maxConnections : Int) ∧
    (p.step op).maxConnections = p.maxConnections := by
  cases op with
  | addConn ok id now =>
      unfold ConnectionPool.step ConnectionPool.addConnection
      by_cases h1 : (p.maxConnections : Int) ≤ p.activeConnections
      · simp [h1, h]
      · by_cases h2 : ok
        · simp [h1, h2]
          omega
        · simp [h1, h2, h]
  | takeValid =>
      unfold ConnectionPool.step
      cases p.pool <;> simp [h]
  | takeInvalid =>
      unfold ConnectionPool.step
      cases p.pool <;> simp [h] <;> omega
  | returnConn id now =>
      unfold ConnectionPool.step
      simp [h]
  | closeAll =>
      unfold ConnectionPool.step
      simp

/-- Invariant over a whole operation sequence for C6. -/
theorem ConnectionPool.runOps_invariant (ops : List PoolOp) :
    ∀ p : ConnectionPool, p.activeConnections ≤ (p.maxConnections : Int) →
      (p.runOps ops).activeConnections ≤ ((p.runOps ops).maxConnections : Int) ∧
      (p.runOps ops).maxConnections = p.maxConnections := by
  induction ops with
  | nil => intro p h; exact ⟨h, rfl⟩
  | cons op rest ih =>
      intro p h
      have hstep := ConnectionPool.step_invariant p op h
      have hrest := ih (p.step op) hstep.1
      refine ⟨hrest.1, ?_⟩
      calc ((p.step op).runOps rest).maxConnections
          = (p.step op).maxConnections := hrest.2
        _ = p.maxConnections := hstep.2

/-- C6: starting from a pool constructed with any max_connections and any
outcomes of the initial min_connections creation attempts, after any
sequence of pool operations the active-connections counter never exceeds
max_connections. -/
theorem connectionPool_active_never_exceeds_max (maxConnections : Nat)
    (creates : List (Bool × Nat × Nat)) (ops : List PoolOp) :
    ((ConnectionPool.init maxConnections creates).runOps ops).activeConnections
      ≤ (maxConnections : Int) := by
  have hinit : ConnectionPool.init maxConnections creates
      = ConnectionPool.runOps
          { pool := [], activeConnections := 0, maxConnections := maxConnections }
          (creates.map fun c => PoolOp.addConn c.1 c.2.1 c.2.2) := by
    unfold ConnectionPool.init ConnectionPool.runOps
    rw [List.foldl_map]
    rfl
  have h0 : (0 : Int) ≤ (maxConnections : Int) := Int.ofNat_nonneg maxConnections
  have h1 := ConnectionPool.runOps_invariant
    (creates.map fun c => PoolOp.addConn c.1 c.2.1 c.2.2)
    { pool := [], activeConnections := 0, maxConnections := maxConnections } h0
  rw [← hinit] at h1
  have h2 := ConnectionPool.runOps_invariant ops (ConnectionPool.init maxConnections creates) h1.1
  have h3 : ((ConnectionPool.init maxConnections creates).runOps ops).maxConnections
      = maxConnections := by rw [h2.2, h1.2]
  rw [h3] at h2
  exact h2.1

/-- Inner-scope invariance for C1: while a transaction is open (level at
least 1, connection held), no statement or nested scope commits, rolls
back, releases the connection, or changes the committed database content;
the nesting level and held connection are also restored. -/
theorem DatabaseClient.execAct_inner (a : DbAct) :
    ∀ st : DbState, 1 ≤ st.transactionLevel → st.connHeld = true →
      (DatabaseClient.execAct a st).1.committed = st.committed ∧
      (DatabaseClient.execAct a st).1.commits = st.commits ∧
      (DatabaseClient.execAct a st).1.rollbacks = st.rollbacks ∧
      (DatabaseClient.execAct a st).1.releases = st.releases ∧
      (DatabaseClient.execAct a st).1.transactionLevel = st.transactionLevel ∧
      (DatabaseClient.execAct a st).1.connHeld = true := by
  induction a with
  | write w =>
      intro st h1 h2
      have h0 : 0 < st.transactionLevel := h1
      simp [DatabaseClient.execAct, h0, h2]
  | err =>
      intro st h1 h2
      exact ⟨rfl, rfl, rfl, rfl, rfl, h2⟩
  | seq a b iha ihb =>
      intro st h1 h2
      obtain ⟨ca, cma, cra, crea, cla, cha⟩ := iha st h1 h2
      have hseq : DatabaseClient.execAct (.seq a b) st
          = if (DatabaseClient.execAct a st).2 then
              DatabaseClient.execAct b (DatabaseClient.execAct a st).1
            else DatabaseClient.execAct a st := rfl
      rw [hseq]
      cases hr : (DatabaseClient.execAct a st).2 with
      | false =>
          rw [if_neg Bool.false_ne_true]
          exact ⟨ca, cma, cra, crea, cla, cha⟩
      | true =>
          rw [if_pos rfl]
          obtain ⟨cb, cmb, crb, creb, clb, chb⟩ :=
            ihb (DatabaseClient.execAct a st).1 (by omega) cha
          exact ⟨cb.trans ca, cmb.trans cma, crb.trans cra, creb.trans crea,
            clb.trans cla, chb⟩
  | tx body ih =>
      intro st h1 h2
      obtain ⟨cb, cmb, crb, creb, clb, chb⟩ :=
        ih { st with transactionLevel := st.transactionLevel + 1 }
          (by show 1 ≤ st.transactionLevel + 1; omega) h2
      simp only [DatabaseClient.execAct]
      split
      case isTrue hconn =>
        split
        case isTrue hok =>
          split
          case isTrue hlvl =>
            rw [clb] at hlvl
            exact absurd hlvl (by show ¬ st.transactionLevel + 1 = 1; omega)
          case isFalse hlvl =>
            split
            case isTrue hz =>
              rw [clb] at hz
              exact absurd hz (by show ¬ st.transactionLevel + 1 - 1 = 0; omega)
            case isFalse hz =>
              refine ⟨cb, cmb, crb, creb, ?_, chb⟩
              rw [clb]
              show st.transactionLevel + 1 - 1 = st.transactionLevel
              omega
        case isFalse hok =>
          split
          case isTrue hlvl =>
            rw [clb] at hlvl
            exact absurd hlvl (by show ¬ st.transactionLevel + 1 = 1; omega)
          case isFalse hlvl =>
            split
            case isTrue hz =>
              rw [clb] at hz
              exact absurd hz (by show ¬ st.transactionLevel + 1 - 1 = 0; omega)
            case isFalse hz =>
              refine ⟨cb, cmb, crb, creb, ?_, chb⟩
              rw [clb]
              show st.transactionLevel + 1 - 1 = st.transactionLevel
              omega
      case isFalse hconn =>
        exact absurd h2 hconn

/-- C1: the transaction scope of DatabaseClient. Entered while a
transaction is already open (nesting), a scope never commits, never
releases and never changes the committed database. Entered at depth 0
with no connection held (the outermost scope), it returns the depth to 0,
releases the connection exactly once, propagates the body's exception
status unchanged, and: on exceptional exit of the body (in particular of
any inner nested scope) it rolls back exactly once and the committed
database is exactly what it was when the outermost scope began; on normal
exit it commits exactly once. -/
theorem databaseClient_nested_transaction (body : DbAct) (st : DbState) :
    (1 ≤ st.transactionLevel → st.connHeld = true →
      (DatabaseClient.execAct (.tx body) st).1.committed = st.committed ∧
      (DatabaseClient.execAct (.tx body) st).1.commits = st.commits ∧
      (DatabaseClient.execAct (.tx body) st).1.releases = st.releases) ∧
    (st.transactionLevel = 0 → st.connHeld = false →
      (DatabaseClient.execAct (.tx body) st).2
          = (DatabaseClient.execAct body
              { st with connHeld := true, transactionLevel := 1 }).2 ∧
      (DatabaseClient.execAct (.tx body) st).1.transactionLevel = 0 ∧
      (DatabaseClient.execAct (.tx body) st).1.connHeld = false ∧
      (DatabaseClient.execAct (.tx body) st).1.releases = st.releases + 1 ∧
      ((DatabaseClient.execAct (.tx body) st).2 = false →
        (DatabaseClient.execAct (.tx body) st).1.committed = st.committed ∧
        (DatabaseClient.execAct (.tx body) st).1.rollbacks = st.rollbacks + 1) ∧
      ((DatabaseClient.execAct (.tx body) st).2 = true →
        (DatabaseClient.execAct (.tx body) st).1.commits = st.commits + 1)) := by
  constructor
  · intro h1 h2
    have h := DatabaseClient.execAct_inner (.tx body) st h1 h2
    exact ⟨h.1, h.2.1, h.2.2.2.1⟩
  · intro h1 h2
    obtain ⟨c0, p0, tl0, ch0, cm0, rb0, rl0⟩ := st
    replace h1 : tl0 = 0 := h1
    replace h2 : ch0 = false := h2
    subst h1
    subst h2
    obtain ⟨cb, cmb, crb, creb, clb, chb⟩ :=
      DatabaseClient.execAct_inner body ⟨c0, p0, 1, true, cm0, rb0, rl0⟩ (le_refl 1) rfl
    cases hr : (DatabaseClient.execAct body
        (⟨c0, p0, 1, true, cm0, rb0, rl0⟩ : DbState)).2 with
    | false =>
        simp [DatabaseClient.execAct, hr, clb, cb, cmb, crb, creb]
    | true =>
        simp [DatabaseClient.execAct, hr, clb, cb, cmb, crb, creb]

/-- Witness for C1 at a concrete program: an outer transaction writing 1
whose inner scope writes 2 and raises. The outer scope ends at depth 0
with the connection released exactly once. -/
theorem databaseClient_nested_transaction_witness :
    (DatabaseClient.execAct dbInnerFailure dbSt0).2
        = (DatabaseClient.execAct ((DbAct.write 1).seq (.tx ((DbAct.write 2).seq .err)))
            { dbSt0 with connHeld := true, transactionLevel := 1 }).2 ∧
    (DatabaseClient.execAct dbInnerFailure dbSt0).1.transactionLevel = 0 ∧
    (DatabaseClient.execAct dbInnerFailure dbSt0).1.connHeld = false ∧
    (DatabaseClient.execAct dbInnerFailure dbSt0).1.releases = dbSt0.releases + 1 := by
  have h := (databaseClient_nested_transaction
    ((DbAct.write 1).seq (.tx ((DbAct.write 2).seq .err))) dbSt0).2 rfl rfl
  exact ⟨h.1, h.2.1, h.2.2.1, h.2.2.2.1⟩

/-- The eviction branch of set does not touch the compressor. -/
theorem branch_compressor (st : MemoryCacheBackend) (c : Prop) [Decidable c] :
    (if c then st.evict_items else st).compressor = st.compressor := by
  split
  · rfl
  · rfl

/-- Core of C2 and C10: a get after a set of the same key returns the
stored value unless the entry has expired, under pickle's and zlib's
round-trip contracts. -/
theorem memGet_after_set (ser : Val → Bytes) (deser : Bytes → Val) (t1 t2 : Nat) (key : String)
    (v : Val) (ttl : Option Nat) (st : MemoryCacheBackend)
    (hser : ∀ x, deser (ser x) = x)
    (hz : ∀ c, st.compressor = some c → ∀ d, c.zdecomp (c.zcomp d) = d) :
    (MemoryCacheBackend.get deser t2 key (MemoryCacheBackend.set ser t1 key v ttl st)).1
      = if isExpired (ttl.map fun t => t1 + t) t2 then .vnone else v := by
  simp only [MemoryCacheBackend.set, MemoryCacheBackend.get]
  rw [dictGet_dictSet_self]
  simp only []
  rw [branch_compressor]
  by_cases hE : isExpired (ttl.map fun t => t1 + t) t2
  · simp [hE]
  · simp only [hE, if_false]
    cases hc : st.compressor with
    | none => simp [compressValue, hser]
    | some c =>
        simp [compressValue, ZlibCompressor.decompress_compress c (ser v) (hz c hc), hser]

/-- C2: for every key, value and ttl, a set on the memory backend followed
by an immediate get returns the stored value: the
serialize-compress-store-decompress-deserialize pipeline is an exact round
trip (given pickle's and zlib's round-trip contracts, which are hypotheses
on the external codecs). -/
theorem memoryCache_set_get_roundtrip (ser : Val → Bytes) (deser : Bytes → Val)
    (st : MemoryCacheBackend) (now : Nat) (key : String) (v : Val) (ttl : Option Nat)
    (hser : ∀ x, deser (ser x) = x)
    (hz : ∀ c, st.compressor = some c → ∀ d, c.zdecomp (c.zcomp d) = d) :
    (MemoryCacheBackend.get deser now key (MemoryCacheBackend.set ser now key v ttl st)).1
      = v := by
  rw [memGet_after_set ser deser now now key v ttl st hser hz]
  cases ttl with
  | none => rfl
  | some t =>
      rw [if_neg]
      intro h
      simp only [Option.map_some', isExpired, decide_eq_true_eq] at h
      omega

/-- Witness for C2: storing 42 under "k" with a 60 second ttl in a fresh
memory cache with the identity compressor and reading it back at the same
instant returns 42. -/
theorem memoryCache_set_get_roundtrip_witness :
    (MemoryCacheBackend.get deserVal 5 "k"
        (MemoryCacheBackend.set serVal 5 "k" (.vint 42) (some 60) memEmptyId)).1
      = Val.vint 42 := by
  refine memoryCache_set_get_roundtrip serVal deserVal memEmptyId 5 "k" (.vint 42) (some 60)
    deserVal_serVal ?_
  intro c hc d
  have hc2 : idCompressor = c := Option.some.inj hc
  rw [← hc2]
  rfl

/-- A get on a missing key only bumps the miss counter. -/
theorem memGet_miss (deser : Bytes → Val) (now : Nat) (key : String) (st : MemoryCacheBackend)
    (h : dictGet st.cache key = none) :
    MemoryCacheBackend.get deser now key st
      = (.vnone, { st with stats := { st.stats with misses := st.stats.misses + 1 } }) := by
  unfold MemoryCacheBackend.get
  rw [h]

/-- The facade get on a missing key returns the default and only bumps the
miss counter. -/
theorem facadeGet_miss (deser : Bytes → Val) (now : Nat) (key : String) (default : Val)
    (st : MemoryCacheBackend) (h : dictGet st.cache key = none) :
    CachingService.get deser now key default st
      = (default, { st with stats := { st.stats with misses := st.stats.misses + 1 } }) := by
  unfold CachingService.get
  rw [memGet_miss deser now key st h]
  simp

/-- On a miss, get_or_set always invokes the compute function. -/
theorem get_or_set_invoked_of_miss (ser : Val → Bytes) (deser : Bytes → Val) (now : Nat)
    (key : String) (vf : Except PyExc Val) (ttl : Option Nat) (st : MemoryCacheBackend)
    (h : dictGet st.cache key = none) :
    (CachingService.get_or_set ser deser now key vf ttl st).2.2 = true := by
  simp only [CachingService.get_or_set]
  rw [facadeGet_miss deser now key .vnone st h]
  cases vf <;> rfl

/-- The value and state produced by get_or_set on a miss. -/
theorem get_or_set_of_miss (ser : Val → Bytes) (deser : Bytes → Val) (now : Nat)
    (key : String) (vf : Except PyExc Val) (ttl : Option Nat) (st : MemoryCacheBackend)
    (h : dictGet st.cache key = none) :
    CachingService.get_or_set ser deser now key vf ttl st
      = (match vf with
         | .error e => (.error (.computeFailed key e),
             { st with stats := { st.stats with misses := st.stats.misses + 1 } }, true)
         | .ok w => (.ok w, CachingService.set ser now key w ttl
             { st with stats := { st.stats with misses := st.stats.misses + 1 } }, true)) := by
  simp only [CachingService.get_or_set]
  rw [facadeGet_miss deser now key .vnone st h]
  cases vf <;> rfl

/-- After a set, the key maps to an entry whose expiry is now + ttl
(or absent for no ttl). -/
theorem memSet_lookup (ser : Val → Bytes) (now : Nat) (key : String) (v : Val)
    (ttl : Option Nat) (st : MemoryCacheBackend) :
    ∃ en, dictGet (MemoryCacheBackend.set ser now key v ttl st).cache key = some en ∧
      en.expiry = ttl.map fun t => now + t := by
  simp only [MemoryCacheBackend.set]
  exact ⟨_, dictGet_dictSet_self _ _ _, rfl⟩

/-- C5: get_or_set on a miss whose compute function raises fails with a
CacheError wrapping the original exception, stores nothing under the key
(so any subsequent get_or_set for the key invokes its compute function
again), while a successful compute is stored with expiry now + ttl and its
value returned. -/
theorem cachingService_get_or_set_compute_failure (ser : Val → Bytes) (deser : Bytes → Val)
    (now : Nat) (key : String) (ttl : Option Nat) (st : MemoryCacheBackend)
    (hmiss : dictGet st.cache key = none) :
    (∀ e : PyExc,
      (CachingService.get_or_set ser deser now key (.error e) ttl st).1
          = .error (.computeFailed key e) ∧
      dictGet (CachingService.get_or_set ser deser now key (.error e) ttl st).2.1.cache key
          = none ∧
      (CachingService.get_or_set ser deser now key (.error e) ttl st).2.2 = true ∧
      (∀ (vf2 : Except PyExc Val) (ttl2 : Option Nat) (now2 : Nat),
        (CachingService.get_or_set ser deser now2 key vf2 ttl2
            (CachingService.get_or_set ser deser now key (.error e) ttl st).2.1).2.2
          = true)) ∧
    (∀ w : Val,
      (CachingService.get_or_set ser deser now key (.ok w) ttl st).1 = .ok w ∧
      ∃ en,
        dictGet (CachingService.get_or_set ser deser now key (.ok w) ttl st).2.1.cache key
            = some en ∧
        en.expiry = ttl.map fun t => now + t) := by
  constructor
  · intro e
    rw [get_or_set_of_miss ser deser now key (.error e) ttl st hmiss]
    refine ⟨rfl, hmiss, rfl, ?_⟩
    intro vf2 ttl2 now2
    exact get_or_set_invoked_of_miss ser deser now2 key vf2 ttl2 _ hmiss
  · intro w
    rw [get_or_set_of_miss ser deser now key (.ok w) ttl st hmiss]
    exact ⟨rfl, memSet_lookup ser now key w ttl _⟩

/-- Witness for C5: on an empty cache under key "k", a raising compute
function yields the wrapping CacheError. -/
theorem cachingService_get_or_set_compute_failure_witness :
    (CachingService.get_or_set serVal deserVal 0 "k" (.error .other) none memEmpty).1
      = .error (.computeFailed "k" .other) :=
  ((cachingService_get_or_set_compute_failure serVal deserVal 0 "k" none memEmpty rfl).1
    PyExc.other).1

/-- A memory get never changes the configured compressor. -/
theorem memGet_compressor (deser : Bytes → Val) (now : Nat) (key : String)
    (st : MemoryCacheBackend) :
    (MemoryCacheBackend.get deser now key st).2.compressor = st.compressor := by
  unfold MemoryCacheBackend.get
  split
  · rfl
  · split
    · rfl
    · rfl

/-- A memory set never changes the configured compressor. -/
theorem memSet_compressor (ser : Val → Bytes) (now : Nat) (key : String) (v : Val)
    (ttl : Option Nat) (st : MemoryCacheBackend) :
    (MemoryCacheBackend.set ser now key v ttl st).compressor = st.compressor := by
  simp only [MemoryCacheBackend.set]
  exact branch_compressor st _

/-- The facade get never changes the configured compressor. -/
theorem facadeGet_compressor (deser : Bytes → Val) (now : Nat) (key : String) (default : Val)
    (st : MemoryCacheBackend) :
    (CachingService.get deser now key default st).2.compressor = st.compressor :=
  memGet_compressor deser now key st

/-- Reading back a stored None yields None at the backend, at any later
time: live entries round-trip to the stored None and expired entries miss. -/
theorem memGet_set_vnone (ser : Val → Bytes) (deser : Bytes → Val) (t1 t2 : Nat) (key : String)
    (ttl : Option Nat) (st : MemoryCacheBackend)
    (hser : ∀ x, deser (ser x) = x)
    (hz : ∀ c, st.compressor = some c → ∀ d, c.zdecomp (c.zcomp d) = d) :
    (MemoryCacheBackend.get deser t2 key (MemoryCacheBackend.set ser t1 key .vnone ttl st)).1
      = .vnone := by
  rw [memGet_after_set ser deser t1 t2 key .vnone ttl st hser hz]
  split
  · rfl
  · rfl

/-- When the backend hands back None the facade get returns the default. -/
theorem facadeGet_vnone (deser : Bytes → Val) (t : Nat) (key : String) (default : Val)
    (st : MemoryCacheBackend)
    (h : (MemoryCacheBackend.get deser t key st).1 = .vnone) :
    (CachingService.get deser t key default st).1 = default := by
  unfold CachingService.get
  simp [h]

/-- When the facade get yields None, get_or_set runs its miss branch:
the compute function is invoked, a failing compute is wrapped, a
successful one stored over the state the facade get produced. -/
theorem get_or_set_of_vnone (ser : Val → Bytes) (deser : Bytes → Val) (now : Nat)
    (key : String) (vf : Except PyExc Val) (ttl : Option Nat) (st : MemoryCacheBackend)
    (h : (CachingService.get deser now key .vnone st).1 = .vnone) :
    CachingService.get_or_set ser deser now key vf ttl st
      = (match vf with
         | .error e => (.error (.computeFailed key e),
             (CachingService.get deser now key .vnone st).2, true)
         | .ok w => (.ok w, CachingService.set ser now key w ttl
             (CachingService.get deser now key .vnone st).2, true)) := by
  simp only [CachingService.get_or_set]
  rw [if_pos h]

/-- C10: after the facade stores None under a key, a get of that key
returns the caller-supplied default rather than the stored None, and a
stored None is indistinguishable from a miss: get_or_set invokes its
compute function again on every call while the computes keep returning
None. -/
theorem cachingService_stored_none_behaves_as_miss (ser : Val → Bytes) (deser : Bytes → Val)
    (now now2 now3 : Nat) (key : String) (default : Val) (ttl ttl2 ttl3 : Option Nat)
    (st : MemoryCacheBackend) (vf : Except PyExc Val)
    (hser : ∀ x, deser (ser x) = x)
    (hz : ∀ c, st.compressor = some c → ∀ d, c.zdecomp (c.zcomp d) = d) :
    (CachingService.get deser now2 key default (CachingService.set ser now key .vnone ttl st)).1
        = default ∧
    (CachingService.get_or_set ser deser now2 key vf ttl2
        (CachingService.set ser now key .vnone ttl st)).2.2 = true ∧
    (CachingService.get_or_set ser deser now3 key vf ttl3
        (CachingService.get_or_set ser deser now2 key (.ok .vnone) ttl2
            (CachingService.set ser now key .vnone ttl st)).2.1).2.2 = true := by
  have hmem1 : ∀ t2 : Nat,
      (MemoryCacheBackend.get deser t2 key
        (CachingService.set ser now key .vnone ttl st)).1 = .vnone := by
    intro t2
    exact memGet_set_vnone ser deser now t2 key ttl st hser hz
  have hfac1 : ∀ (t2 : Nat) (d : Val),
      (CachingService.get deser t2 key d (CachingService.set ser now key .vnone ttl st)).1
        = d := by
    intro t2 d
    exact facadeGet_vnone deser t2 key d _ (hmem1 t2)
  refine ⟨hfac1 now2 default, ?_, ?_⟩
  · simp only [CachingService.get_or_set]
    rw [if_pos (hfac1 now2 .vnone)]
    cases vf <;> rfl
  · rw [get_or_set_of_vnone ser deser now2 key (.ok .vnone) ttl2 _ (hfac1 now2 .vnone)]
    have hcomp2 : (CachingService.get deser now2 key Val.vnone
        (CachingService.set ser now key Val.vnone ttl st)).2.compressor = st.compressor := by
      rw [facadeGet_compressor]
      exact memSet_compressor ser now key .vnone ttl st
    have hz2 : ∀ c, (CachingService.get deser now2 key Val.vnone
        (CachingService.set ser now key Val.vnone ttl st)).2.compressor = some c →
        ∀ d, c.zdecomp (c.zcomp d) = d := by
      intro c hc d
      exact hz c (hcomp2 ▸ hc) d
    have hmem3 : (MemoryCacheBackend.get deser now3 key
        (CachingService.set ser now2 key .vnone ttl2
          (CachingService.get deser now2 key Val.vnone
            (CachingService.set ser now key Val.vnone ttl st)).2)).1 = .vnone :=
      memGet_set_vnone ser deser now2 now3 key ttl2 _ hser hz2
    simp only [CachingService.get_or_set]
    rw [if_pos (facadeGet_vnone deser now3 key .vnone _ hmem3)]
    cases vf <;> rfl

/-- Witness for C10: with the concrete codec on a fresh cache, storing
None under "k" and reading it back with default 7 yields 7. -/
theorem cachingService_stored_none_behaves_as_miss_witness :
    (CachingService.get deserVal 1 "k" (.vint 7)
        (CachingService.set serVal 0 "k" .vnone none memEmpty)).1 = Val.vint 7 :=
  (cachingService_stored_none_behaves_as_miss serVal deserVal 0 1 2 "k" (.vint 7)
    none none none memEmpty (.ok .vnone) deserVal_serVal
    (fun c hc => absurd hc (by simp [memEmpty]))).1

/-- On a dict (unique keys), deleting a key is filtering it out. -/
theorem dictDelete_eq_filter (l : List (String × MemEntry)) (k : String)
    (h : (l.map Prod.fst).Nodup) :
    dictDelete l k = l.filter fun p => !(p.1 == k) := by
  induction l with
  | nil => rfl
  | cons p rest ih =>
      rw [List.map_cons, List.nodup_cons] at h
      by_cases hpk : p.1 = k
      · rw [dictDelete, if_pos hpk, List.filter_cons]
        have hbeq : (p.1 == k) = true := beq_iff_eq.mpr hpk
        rw [hbeq]
        simp only [Bool.not_true, Bool.false_eq_true, if_false]
        rw [List.filter_eq_self.mpr]
        intro q hq
        have hqk : q.1 ≠ k := by
          intro hqk
          apply h.1
          have hmem : q.1 ∈ rest.map Prod.fst := List.mem_map_of_mem Prod.fst hq
          rw [hqk, ← hpk] at hmem
          exact hmem
        simp [hqk]
      · rw [dictDelete, if_neg hpk, List.filter_cons]
        have hbeq : (p.1 == k) = false := by simp [hpk]
        rw [hbeq]
        simp only [Bool.not_false, if_true]
        rw [ih h.2]

/-- Sequentially deleting a list of keys from a dict is filtering them all
out. -/
theorem foldl_dictDelete_eq_filter (ks : List String) :
    ∀ l : List (String × MemEntry), (l.map Prod.fst).Nodup →
      ks.foldl dictDelete l = l.filter fun p => !(ks.contains p.1) := by
  induction ks with
  | nil =>
      intro l _
      simp
  | cons k ks ih =>
      intro l h
      show ks.foldl dictDelete (dictDelete l k) = _
      rw [dictDelete_eq_filter l k h]
      have h2 : (((l.filter fun p => !(p.1 == k)).map Prod.fst)).Nodup :=
        h.sublist ((List.filter_sublist l).map Prod.fst)
      rw [ih _ h2, List.filter_filter]
      apply List.filter_congr
      intro p _
      rw [List.contains_cons, Bool.not_or, Bool.and_comm]

/-- Bridge between Bool contains and membership for key lists. -/
theorem stringContains_iff (l : List String) (x : String) : l.contains x = true ↔ x ∈ l := by
  simp

/-- The eviction deletions amount to filtering out the selected keys. -/
theorem evict_items_cache (st : MemoryCacheBackend) (hnodup : (st.cache.map Prod.fst).Nodup) :
    (st.evict_items).cache
      = st.cache.filter fun p =>
          !((((List.insertionSort entryLe st.cache).take
              (max 1 (st.cache.length / 10))).map Prod.fst).contains p.1) := by
  simp only [MemoryCacheBackend.evict_items]
  exact foldl_dictDelete_eq_filter _ _ hnodup

/-- On the sorted entry list itself, filtering out the first k keys leaves
exactly the remaining suffix (keys are unique). -/
theorem sorted_filter_eq_drop (l : List (String × MemEntry)) (k : Nat)
    (hnodup : (l.map Prod.fst).Nodup) :
    (List.insertionSort entryLe l).filter
        (fun p => !((((List.insertionSort entryLe l).take k).map Prod.fst).contains p.1))
      = (List.insertionSort entryLe l).drop k := by
  set s := List.insertionSort entryLe l with hs
  have hnodupS : (s.map Prod.fst).Nodup :=
    ((List.perm_insertionSort entryLe l).map Prod.fst).nodup_iff.mpr hnodup
  have hsplitmap : s.map Prod.fst = (s.take k).map Prod.fst ++ (s.drop k).map Prod.fst := by
    rw [← List.map_append, List.take_append_drop]
  rw [hsplitmap] at hnodupS
  have hdisj := (List.nodup_append.mp hnodupS).2.2
  have h1 : (s.take k).filter (fun p => !(((s.take k).map Prod.fst).contains p.1)) = [] := by
    rw [List.filter_eq_nil_iff]
    intro p hp
    have hm : ((s.take k).map Prod.fst).contains p.1 = true :=
      (stringContains_iff _ _).mpr (List.mem_map_of_mem Prod.fst hp)
    rw [hm]
    simp
  have h2 : (s.drop k).filter (fun p => !(((s.take k).map Prod.fst).contains p.1))
      = s.drop k := by
    rw [List.filter_eq_self]
    intro p hp
    have hpk : p.1 ∉ (s.take k).map Prod.fst := by
      intro hmem
      exact hdisj hmem (List.mem_map_of_mem Prod.fst hp)
    have hc : ((s.take k).map Prod.fst).contains p.1 = false := by
      rw [Bool.eq_false_iff]
      intro hc
      exact hpk ((stringContains_iff _ _).mp hc)
    rw [hc]
    rfl
  have hstep : s.filter (fun p => !(((s.take k).map Prod.fst).contains p.1))
      = (s.take k ++ s.drop k).filter
          (fun p => !(((s.take k).map Prod.fst).contains p.1)) := by
    rw [List.take_append_drop]
  rw [hstep, List.filter_append, h1, h2, List.nil_append]

/-- Eviction removes exactly max(1, n / 10) entries from a nonempty store
with unique keys. -/
theorem evict_items_length (st : MemoryCacheBackend)
    (hnodup : (st.cache.map Prod.fst).Nodup) :
    (st.evict_items).cache.length
      = st.cache.length - max 1 (st.cache.length / 10) := by
  rw [evict_items_cache st hnodup]
  have hperm := List.perm_insertionSort entryLe st.cache
  rw [← (hperm.filter _).length_eq]
  rw [sorted_filter_eq_drop st.cache (max 1 (st.cache.length / 10)) hnodup]
  rw [List.length_drop, hperm.length_eq]

/-- Eviction counts exactly max(1, n / 10) evictions on a nonempty store. -/
theorem evict_items_evictions (st : MemoryCacheBackend) (hlen : 1 ≤ st.cache.length) :
    (st.evict_items).stats.evictions
      = st.stats.evictions + max 1 (st.cache.length / 10) := by
  simp only [MemoryCacheBackend.evict_items]
  congr 1
  rw [List.length_take, (List.perm_insertionSort entryLe st.cache).length_eq]
  have := Nat.div_le_self st.cache.length 10
  omega

/-- The entries eviction removes are the least recently accessed ones:
every removed entry has a last access time at most that of every
surviving entry. -/
theorem evict_items_minimality (st : MemoryCacheBackend)
    (hnodup : (st.cache.map Prod.fst).Nodup) :
    ∀ p ∈ (st.evict_items).cache, ∀ q ∈ st.cache,
      q.1 ∉ (st.evict_items).cache.map Prod.fst →
      q.2.lastAccess ≤ p.2.lastAccess := by
  intro p hp q hq hqnot
  have hcache := evict_items_cache st hnodup
  rw [hcache] at hp hqnot
  set k := max 1 (st.cache.length / 10) with hk
  set s := List.insertionSort entryLe st.cache with hs
  have hperm : s.Perm st.cache := List.perm_insertionSort entryLe st.cache
  have hnodupS : (s.map Prod.fst).Nodup :=
    (hperm.map Prod.fst).nodup_iff.mpr hnodup
  have hsplitmap : s.map Prod.fst = (s.take k).map Prod.fst ++ (s.drop k).map Prod.fst := by
    rw [← List.map_append, List.take_append_drop]
  rw [hsplitmap] at hnodupS
  have hdisj := (List.nodup_append.mp hnodupS).2.2
  have hpQ := List.of_mem_filter hp
  have hpc := List.mem_of_mem_filter hp
  have hps : p ∈ s := hperm.mem_iff.mpr hpc
  have hpdrop : p ∈ s.drop k := by
    rcases (List.mem_append.mp (by rw [List.take_append_drop k s]; exact hps)) with h | h
    · exfalso
      have : ((s.take k).map Prod.fst).contains p.1 = true :=
        (stringContains_iff _ _).mpr (List.mem_map_of_mem Prod.fst h)
      rw [this] at hpQ
      simp at hpQ
    · exact h
  have hqs : q ∈ s := hperm.mem_iff.mpr hq
  have hqtake : q ∈ s.take k := by
    rcases (List.mem_append.mp (by rw [List.take_append_drop k s]; exact hqs)) with h | h
    · exact h
    · exfalso
      apply hqnot
      have hqk : q.1 ∉ (s.take k).map Prod.fst := by
        intro hmem
        exact hdisj hmem (List.mem_map_of_mem Prod.fst h)
      have hc : ((s.take k).map Prod.fst).contains q.1 = false := by
        rw [Bool.eq_false_iff]
        intro hc
        exact hqk ((stringContains_iff _ _).mp hc)
      have hqf : q ∈ st.cache.filter fun p =>
          !(((s.take k).map Prod.fst).contains p.1) := by
        rw [List.mem_filter]
        exact ⟨hq, by rw [hc]; rfl⟩
      exact List.mem_map_of_mem Prod.fst hqf
  have hsorted : List.Sorted entryLe s := List.sorted_insertionSort entryLe st.cache
  have hpw : List.Pairwise entryLe (s.take k ++ s.drop k) := by
    rw [List.take_append_drop]
    exact hsorted
  exact (List.pairwise_append.mp hpw).2.2 q hqtake p hpdrop

/-- Inserting a fresh key appends one entry. -/
theorem dictSet_length_of_absent (l : List (String × MemEntry)) (k : String) (e : MemEntry)
    (h : dictGet l k = none) :
    (dictSet l k e).length = l.length + 1 := by
  induction l with
  | nil => rfl
  | cons p rest ih =>
      rw [dictGet] at h
      by_cases hpk : p.1 = k
      · rw [if_pos hpk] at h
        exact absurd h (by simp)
      · rw [if_neg hpk] at h
        rw [dictSet, if_neg hpk, List.length_cons, List.length_cons, ih h]

/-- A key absent from a dict is absent from any filtering of it. -/
theorem dictGet_none_filter (l : List (String × MemEntry)) (k : String)
    (q : String × MemEntry → Bool) (h : dictGet l k = none) :
    dictGet (l.filter q) k = none := by
  rw [dictGet_eq_none_iff] at *
  intro p hp
  exact h p (List.mem_of_mem_filter hp)

/-- On a full store and a new key, set evicts first and then inserts. -/
theorem memSet_cache_full (ser : Val → Bytes) (now : Nat) (key : String) (v : Val)
    (ttl : Option Nat) (st : MemoryCacheBackend)
    (hfull : st.maxSize ≤ st.cache.length) (hnew : dictGet st.cache key = none) :
    (MemoryCacheBackend.set ser now key v ttl st).cache
      = dictSet (st.evict_items).cache key
          ⟨(compressValue (st.evict_items).compressor (ser v)).1, ttl.map fun t => now + t,
           now, (compressValue (st.evict_items).compressor (ser v)).2, (ser v).length⟩ := by
  simp only [MemoryCacheBackend.set]
  rw [if_pos ⟨hfull, hnew⟩]

/-- On a full store and a new key, set leaves the eviction counter where
eviction put it. -/
theorem memSet_evictions_full (ser : Val → Bytes) (now : Nat) (key : String) (v : Val)
    (ttl : Option Nat) (st : MemoryCacheBackend)
    (hfull : st.maxSize ≤ st.cache.length) (hnew : dictGet st.cache key = none) :
    (MemoryCacheBackend.set ser now key v ttl st).stats.evictions
      = (st.evict_items).stats.evictions := by
  simp only [MemoryCacheBackend.set]
  rw [if_pos ⟨hfull, hnew⟩]

/-- Counterexample to C3 as stated: with max_size = 0 and an empty store,
set("a", 1) satisfies the claim's trigger (the store holds at least
max_size entries and the key is new, so eviction runs before insertion),
the claimed batch size max(1, n // 10) is 1, and yet no entry is evicted:
the Python loop guard `i < len(items)` stops at the empty item list. -/
theorem memoryCache_eviction_zero_max_counterexample :
    memCache0.maxSize ≤ memCache0.cache.length ∧
    dictGet memCache0.cache "a" = none ∧
    (MemoryCacheBackend.set serVal 0 "a" (Val.vint 1) none memCache0).stats.evictions = 0 ∧
    max 1 (memCache0.cache.length / 10) = 1 := by
  decide

/-- C3 (amended): when set is called with a new key on a store holding at
least max_size entries, eviction runs before insertion and removes exactly
min(n, max(1, n // 10)) entries; the minimum only binds on an empty store,
so on a nonempty store (as here, hypothesis 1 ≤ n) exactly
max(1, n // 10) entries are removed, chosen as those with the smallest
last_access times. In particular, in the concrete scenario with
max_size = 2 and sets of "a", "b", "c" at times 1, 2, 3, exactly one entry
is evicted, the store size stays at 2, and get("a") afterwards yields
None. -/
theorem memoryCache_eviction_batch (ser : Val → Bytes) (now : Nat) (key : String) (v : Val)
    (ttl : Option Nat) (st : MemoryCacheBackend)
    (hnodup : (st.cache.map Prod.fst).Nodup)
    (hlen : 1 ≤ st.cache.length)
    (hfull : st.maxSize ≤ st.cache.length)
    (hnew : dictGet st.cache key = none) :
    (MemoryCacheBackend.set ser now key v ttl st).cache.length
        = st.cache.length - max 1 (st.cache.length / 10) + 1 ∧
    (MemoryCacheBackend.set ser now key v ttl st).stats.evictions
        = st.stats.evictions + max 1 (st.cache.length / 10) ∧
    (∀ p ∈ st.evict_items.cache, ∀ q ∈ st.cache,
        q.1 ∉ st.evict_items.cache.map Prod.fst → q.2.lastAccess ≤ p.2.lastAccess) ∧
    scenarioC3.cache.length ≤ 2 ∧
    scenarioC3.stats.evictions = 1 ∧
    (MemoryCacheBackend.get deserVal 4 "a" scenarioC3).1 = Val.vnone := by
  refine ⟨?_, ?_, evict_items_minimality st hnodup, by decide, by decide, by decide⟩
  · rw [memSet_cache_full ser now key v ttl st hfull hnew]
    have habs : dictGet (st.evict_items).cache key = none := by
      rw [evict_items_cache st hnodup]
      exact dictGet_none_filter _ _ _ hnew
    rw [dictSet_length_of_absent _ _ _ habs]
    rw [evict_items_length st hnodup]
  · rw [memSet_evictions_full ser now key v ttl st hfull hnew]
    exact evict_items_evictions st hlen

/-- Witness for C3 at the concrete two-entry store: inserting "c" evicts
exactly one entry, leaving 2 = 2 - 1 + 1 entries. -/
theorem memoryCache_eviction_batch_witness :
    (MemoryCacheBackend.set serVal 3 "c" (Val.vint 3) none memTwoEntries).cache.length
        = memTwoEntries.cache.length - max 1 (memTwoEntries.cache.length / 10) + 1 ∧
    (MemoryCacheBackend.set serVal 3 "c" (Val.vint 3) none memTwoEntries).stats.evictions
        = memTwoEntries.stats.evictions + max 1 (memTwoEntries.cache.length / 10) :=
  ⟨(memoryCache_eviction_batch serVal 3 "c" (Val.vint 3) none memTwoEntries
      (by decide) (by decide) (by decide) (by decide)).1,
   (memoryCache_eviction_batch serVal 3 "c" (Val.vint 3) none memTwoEntries
      (by decide) (by decide) (by decide) (by decide)).2.1⟩
